import Mathlib

/-!
# Verification of the HashForge Lab pipeline evaluator (`src/app.js`)

Shallow embedding of the hash-pipeline core of `app.js`:
the step catalog `STEPS`, the evaluator `runHash`, the boundary guard of the
`btn-run` click handler, and the avalanche comparison `runAvalanche` /
`flipChar` / `countDifferentChars`.

Modelling conventions:
* A JavaScript string is a `List Nat` of UTF-16 code units (each `< 65536`
  for real JS strings).  `for (const c of s)` iterates code points; every step
  then reads `c.charCodeAt(0)`, i.e. the *first* UTF-16 unit of the code
  point, which `jsUnits` computes.  `[...s]` spreads into code-point strings,
  computed by `jsSpread`.
* JS numbers are modelled exactly: the source only performs integer
  arithmetic that is exact in IEEE doubles (or uses `BigInt`), followed by
  32-bit narrowing; `x >>> 0` becomes `x % 4294967296`, `Math.imul(a,b) >>> 0`
  becomes `a * b % 4294967296`, and bitwise ops on in-range values are the
  corresponding `Nat` bitwise ops.  The one place the source keeps a *signed*
  32-bit value (the final `h2 ^= h2 >>> 16` of `runHash`, which lacks a
  `>>> 0`) is modelled with `toInt32`.
* The `desc`/`label`/`icon`/`latex` strings of the trace are presentation
  data (spec §4.1: "exact wording is a presentation concern") and are not
  modelled; each step's numeric `val` result is.
* Failures (the `TypeError` thrown by `STEPS[key].run` when `key` is not in
  the catalog, and the one thrown by `flipChar` on an out-of-range index) are
  modelled with `Except JsError`.
-/

/-- `2^32`, the modulus of the unsigned 32-bit narrowing `>>> 0`. -/
def U32 : Nat := 4294967296

/-- ToInt32: reinterpret the low 32 bits of `n` as a signed 32-bit integer.
This is what a JS bitwise operator returns. -/
def toInt32 (n : Nat) : Int :=
  if n % U32 < 2147483648 then (n % U32 : Int) else (n % U32 : Int) - (U32 : Int)

/-- First UTF-16 unit of a high/low surrogate pair test. -/
def isHighSurrogate (u : Nat) : Bool := 55296 ≤ u && u ≤ 56319

/-- Low (trailing) surrogate test. -/
def isLowSurrogate (u : Nat) : Bool := 56320 ≤ u && u ≤ 57343

/-- `[c.charCodeAt(0) for c of s]`: iterate a UTF-16 unit list by code points
(surrogate pairs are consumed together) and keep each code point's *first*
unit.  This is the value every string-derived step of `app.js` consumes. -/
def jsUnits : List Nat → List Nat
  | [] => []
  | [u] => [u]
  | u :: v :: rest =>
    if isHighSurrogate u && isLowSurrogate v then u :: jsUnits rest
    else u :: jsUnits (v :: rest)

/-- The code-point values of a UTF-16 unit list (what `codePointAt` would
give): surrogate pairs are decoded.  Used to state what the spec *claims*
the string steps consume. -/
def jsCodePoints : List Nat → List Nat
  | [] => []
  | [u] => [u]
  | u :: v :: rest =>
    if isHighSurrogate u && isLowSurrogate v then
      (65536 + (u - 55296) * 1024 + (v - 56320)) :: jsCodePoints rest
    else u :: jsCodePoints (v :: rest)

/-- `[...s]`: spread a UTF-16 unit list into its code-point strings, each a
one- or two-unit list. -/
def jsSpread : List Nat → List (List Nat)
  | [] => []
  | [u] => [[u]]
  | u :: v :: rest =>
    if isHighSurrogate u && isLowSurrogate v then [u, v] :: jsSpread rest
    else [u] :: jsSpread (v :: rest)

/-- UTF-16 units of an ASCII/BMP Lean string literal. -/
def strUnits (s : String) : List Nat := s.data.map Char.toNat

/-- The mutable per-run state of `runHash` (`{str, val, salt, hexStr}`). -/
structure HashState where
  str : List Nat
  val : Nat
  salt : List Nat
  hexStr : List Char
  deriving Repr, DecidableEq

/-- One lowercase hex digit, as produced by `Number.prototype.toString(16)`. -/
def hexDigit (n : Nat) : Char :=
  if n < 10 then Char.ofNat (48 + n) else Char.ofNat (87 + n)

/-- Little-endian hex digits of `n`; the first argument is fuel (`n` itself
suffices since the value shrinks by a factor 16 each step). -/
def hexDigitsAux : Nat → Nat → List Char
  | 0, _ => []
  | _ + 1, 0 => []
  | fuel + 1, n + 1 => hexDigit ((n + 1) % 16) :: hexDigitsAux fuel ((n + 1) / 16)

/-- `n.toString(16)` for a non-negative integer: minimal-length lowercase hex,
`"0"` for zero. -/
def jsHex (n : Nat) : List Char :=
  if n = 0 then ['0'] else (hexDigitsAux n n).reverse

/-- `i.toString(16)` for a possibly negative (int32) value: JS renders a
negative number as `'-'` followed by the hex digits of its magnitude. -/
def jsIntHex (i : Int) : List Char :=
  if i < 0 then '-' :: jsHex i.natAbs else jsHex i.toNat

/-- `s.padStart(8, '0')`. -/
def pad8 (l : List Char) : List Char := List.replicate (8 - l.length) '0' ++ l

/-- `STEPS.charcode_sum.run`: `v = Σ c.charCodeAt(0)`, `val = (val + v) >>> 0`. -/
def charcode_sum_run (s : HashState) : HashState × Nat :=
  let v := (jsUnits s.str).foldl (· + ·) 0
  let val := (s.val + v) % U32
  ({ s with val := val }, val)

/-- `STEPS.polynomial_roll.run`: BigInt fold `h = (h + c·p) % (10^9+7)`,
`p = (p·31) % (10^9+7)`, then `Number(h) >>> 0`. -/
def polynomial_roll_run (s : HashState) : HashState × Nat :=
  let h := ((jsUnits s.str).foldl
    (fun (a : Nat × Nat) c => ((a.1 + c * a.2) % 1000000007, (a.2 * 31) % 1000000007))
    (0, 1)).1
  let val := h % U32
  ({ s with val := val }, val)

/-- `STEPS.xor_fold.run`: `val ^= c` over the string, then `val >>>= 0`. -/
def xor_fold_run (s : HashState) : HashState × Nat :=
  let v := (jsUnits s.str).foldl (fun a c => a ^^^ c) (s.val % U32)
  let val := v % U32
  ({ s with val := val }, val)

/-- The `while (exp > 0)` square-and-multiply loop of `STEPS.modular_exp.run`
(BigInt arithmetic, so exact).  The loop terminates because `exp` halves each
iteration; structural recursion on a fuel bound (`exp` itself more than
suffices) keeps the definition kernel-reducible. -/
def modExpLoop (M : Nat) : Nat → Nat → Nat → Nat → Nat
  | 0, result, _, _ => result
  | fuel + 1, result, base, exp =>
    if exp = 0 then result
    else modExpLoop M fuel (if exp % 2 = 1 then result * base % M else result)
      (base * base % M) (exp / 2)

/-- The numeric part of `STEPS.modular_exp.run` on the current accumulator
`v`: `base = BigInt(v || 1) % M`, `if (base === 0n) base = 1n`, then the fast
exponentiation loop for `base^65537 mod (2^31−1)`.  Marked irreducible so
that definitional unfolding never symbolically expands the 17-iteration
loop; proofs go through `modExpLoop_eq` instead. -/
@[irreducible] def jsModExp (v : Nat) : Nat :=
  let b0 := (if v = 0 then 1 else v) % 2147483647
  let base := if b0 = 0 then 1 else b0
  modExpLoop 2147483647 65537 1 base 65537

/-- `STEPS.modular_exp.run`: the loop result is written back with
`Number(result) >>> 0`. -/
def modular_exp_run (s : HashState) : HashState × Nat :=
  let val := jsModExp s.val % U32
  ({ s with val := val }, val)

/-- `STEPS.fibonacci_mix.run`: `val = (val · 2654435769) mod 2^32`. -/
def fibonacci_mix_run (s : HashState) : HashState × Nat :=
  let val := s.val * 2654435769 % U32
  ({ s with val := val }, val)

/-- `STEPS.prime_multiply.run`: `val = (val · 1000000007) mod 2^32`. -/
def prime_multiply_run (s : HashState) : HashState × Nat :=
  let val := s.val * 1000000007 % U32
  ({ s with val := val }, val)

/-- `((h << 13) | (h >>> 19)) >>> 0` with `h = v >>> 0`: 32-bit rotate left
by 13.  `h << 13` keeps the low 32 bits (`% U32`); `h >>> 19` is division. -/
def rotl13 (v : Nat) : Nat :=
  let h := v % U32
  (h * 8192) % U32 ||| h / 524288

/-- `STEPS.bit_rotate.run`. -/
def bit_rotate_run (s : HashState) : HashState × Nat :=
  let val := rotl13 s.val
  ({ s with val := val }, val)

/-- `STEPS.ascii_square.run`: BigInt fold `v = (v + c²) % 2^32`, then
`val = (val + Number(v)) >>> 0`. -/
def ascii_square_run (s : HashState) : HashState × Nat :=
  let v := (jsUnits s.str).foldl (fun a c => (a + c * c) % U32) 0
  let val := (s.val + v) % U32
  ({ s with val := val }, val)

/-- The Murmur3-style finalizer body shared by `STEPS.avalanche.run`,
`STEPS.rounds.run` and the final-hash synthesis of `runHash`:
`h ^= h>>>16; h = imul(h, 0x85ebca6b)>>>0; h ^= h>>>13;
h = imul(h, 0xc2b2ae35)>>>0; h ^= h>>>16`. -/
def avalancheFinalize (h0 : Nat) : Nat :=
  let h1 := h0 ^^^ h0 / 65536
  let h2 := h1 * 0x85ebca6b % U32
  let h3 := h2 ^^^ h2 / 8192
  let h4 := h3 * 0xc2b2ae35 % U32
  h4 ^^^ h4 / 65536

/-- `STEPS.avalanche.run`: `h = val >>> 0`, finalize, `val = h >>> 0`. -/
def avalanche_run (s : HashState) : HashState × Nat :=
  let val := avalancheFinalize (s.val % U32) % U32
  ({ s with val := val }, val)

/-- `STEPS.salt_inject.run`: `salt = state.salt || 'x'` (the one-character
string `'x'`, unit 120, when the salt is empty!), polynomial fold
`sv = (sv + c·p) >>> 0`, `p = imul(p, 31) >>> 0`, then `val = (val ^ sv) >>> 0`. -/
def salt_inject_run (s : HashState) : HashState × Nat :=
  let salt := if s.salt = [] then [120] else s.salt
  let sv := ((jsUnits salt).foldl
    (fun (a : Nat × Nat) c => ((a.1 + c * a.2) % U32, a.2 * 31 % U32)) (0, 1)).1
  let val := (s.val ^^^ sv) % U32
  ({ s with val := val }, val)

/-- `STEPS.rounds.run`: the avalanche finalize body applied 8 times, then
`val = h >>> 0`. -/
def rounds_run (s : HashState) : HashState × Nat :=
  let val := avalancheFinalize^[8] (s.val % U32) % U32
  ({ s with val := val }, val)

/-- `STEPS.hex_encode.run`: append `val.toString(16).padStart(8,'0')` to
`hexStr`; `val` itself is untouched. -/
def hex_encode_run (s : HashState) : HashState × Nat :=
  let hex := pad8 (jsHex s.val)
  ({ s with hexStr := s.hexStr ++ hex }, s.val)

/-- `STEPS.modulo_trim.run`: `val = val % 65536`. -/
def modulo_trim_run (s : HashState) : HashState × Nat :=
  let val := s.val % 65536
  ({ s with val := val }, val)

/-- The step catalog: property lookup `STEPS[key]`, `none` when the key is
absent (in JS the subsequent `.run` access throws a `TypeError`). -/
def STEPS (k : String) : Option (HashState → HashState × Nat) :=
  if k = "charcode_sum" then some charcode_sum_run
  else if k = "polynomial_roll" then some polynomial_roll_run
  else if k = "xor_fold" then some xor_fold_run
  else if k = "modular_exp" then some modular_exp_run
  else if k = "fibonacci_mix" then some fibonacci_mix_run
  else if k = "prime_multiply" then some prime_multiply_run
  else if k = "bit_rotate" then some bit_rotate_run
  else if k = "ascii_square" then some ascii_square_run
  else if k = "avalanche" then some avalanche_run
  else if k = "salt_inject" then some salt_inject_run
  else if k = "rounds" then some rounds_run
  else if k = "hex_encode" then some hex_encode_run
  else if k = "modulo_trim" then some modulo_trim_run
  else none

/-- Failures surfaced by the evaluator: the `TypeError` thrown on an unknown
catalog key (the spec's `UnknownStepError`) and the `TypeError` thrown by
`flipChar` on an out-of-range index. -/
inductive JsError where
  | unknownStep (id : String)
  | typeError
  deriving Repr, DecidableEq

/-- The `steps.map` loop of `runHash`: run each step in order, threading the
state and collecting the per-step values. -/
def runSteps : HashState → List String → Except JsError (HashState × List Nat)
  | s, [] => .ok (s, [])
  | s, k :: rest =>
    match STEPS k with
    | none => .error (.unknownStep k)
    | some f =>
      let r := f s
      match runSteps r.1 rest with
      | .error e => .error e
      | .ok (t, vs) => .ok (t, r.2 :: vs)

/-- The `RunResult` of one evaluation (trace strings omitted; `stepOutputs`
holds the numeric per-step values). -/
structure RunResult where
  finalHash : List Char
  stepOutputs : List Nat
  stateVal : Nat
  deriving Repr, DecidableEq

/-- The fresh state of `runHash`: `str = password + salt`, accumulator seeded
with `(password.length × 2166136261) >>> 0`. -/
def initState (password salt : List Nat) : HashState :=
  { str := password ++ salt
    val := password.length * 2166136261 % U32
    salt := salt
    hexStr := [] }

/-- `runHash(password, salt, steps)` of `app.js` lines 278-312.  When no step
wrote to `hexStr`, the final hash is synthesized from the accumulator `h1`
and a second word `h2` obtained by the avalanche-finalize operations — except
that the last `h2 ^= h2 >>> 16` is *not* followed by `>>> 0`, so `h2` is a
signed int32 and is rendered by `toString(16)` with a minus sign whenever its
top bit is set. -/
def runHash (password salt : List Nat) (steps : List String) : Except JsError RunResult :=
  match runSteps (initState password salt) steps with
  | .error e => .error e
  | .ok (s, vs) =>
    let finalHash :=
      if s.hexStr ≠ [] then s.hexStr
      else
        let h1 := s.val
        let t1 := (h1 ^^^ h1 / 65536) * 0x85ebca6b % U32
        let t2 := (t1 ^^^ t1 / 8192) * 0xc2b2ae35 % U32
        let h2 := toInt32 (t2 ^^^ t2 / 65536)
        pad8 (jsHex h1) ++ pad8 (jsIntHex h2)
    .ok { finalHash := finalHash, stepOutputs := vs, stateVal := s.val }

/-- The guard of the `btn-run` click handler (lines 314-323): an empty
pipeline is blocked with an alert (`none`) before `runHash` is ever invoked;
otherwise the inputs are read, an empty password field defaulting to the
string `"password"`, and `runHash` is called. -/
def btnRunClick (passwordInput saltInput : List Nat) (pipeline : List String) :
    Option (Except JsError RunResult) :=
  if pipeline.length = 0 then none
  else
    let password := if passwordInput = [] then strUnits "password" else passwordInput
    some (runHash password saltInput pipeline)

/-- `flipChar(str, idx)`: spread into code points, increment the first UTF-16
unit of the `idx`-th one (`String.fromCharCode` wraps to 16 bits), rejoin.
An out-of-range (or negative) index makes `arr[idx]` `undefined` and the
`charCodeAt` call throw. -/
def flipChar (str : List Nat) (idx : Int) : Except JsError (List Nat) :=
  let arr := jsSpread str
  if 0 ≤ idx ∧ idx.toNat < arr.length then
    .ok (List.flatten (arr.set idx.toNat [((arr.getD idx.toNat []).headD 0 + 1) % 65536]))
  else .error .typeError

/-- `countDifferentChars(a, b)`: differing positions up to the shorter length,
plus the absolute length difference. -/
def countDifferentChars (a b : List Char) : Nat :=
  ((a.zip b).countP fun p => p.1 != p.2) + ((a.length : Int) - (b.length : Int)).natAbs

/-- `Math.round((diff / base.length) * 100)` as exact rational rounding
(round half up): `⌊(200·diff + len) / (2·len)⌋`. -/
def roundPct (diff len : Nat) : Nat := (200 * diff + len) / (2 * len)

/-- One row of the avalanche grid. -/
structure AvRow where
  label : String
  hash : List Char
  pct : Nat
  deriving Repr, DecidableEq

/-- The `tests.forEach` loop of `runAvalanche`: hash each mutated password and
build its row. -/
def avRowsGo (base : List Char) (salt : List Nat) (steps : List String) :
    List (String × List Nat) → Except JsError (List AvRow)
  | [] => .ok []
  | (label, pw) :: rest =>
    match runHash pw salt steps with
    | .error e => .error e
    | .ok r =>
      match avRowsGo base salt steps rest with
      | .error e => .error e
      | .ok rows =>
        .ok ({ label := label
               hash := r.finalHash
               pct := roundPct (countDifferentChars base r.finalHash) base.length } :: rows)

/-- `runAvalanche(password, salt, steps)` (lines 352-378): base hash, then the
three single-character mutations (first, middle, last — the last one at index
`password.length - 1`, which is `-1` for an empty password), then one row per
test.  DOM rendering is modelled as the returned row list. -/
def runAvalanche (password salt : List Nat) (steps : List String) :
    Except JsError (List AvRow) :=
  match runHash password salt steps with
  | .error e => .error e
  | .ok baseRes =>
    let base := baseRes.finalHash
    match flipChar password 0 with
    | .error e => .error e
    | .ok p1 =>
      match flipChar password ((password.length / 2 : Nat) : Int) with
      | .error e => .error e
      | .ok p2 =>
        match flipChar password ((password.length : Int) - 1) with
        | .error e => .error e
        | .ok p3 =>
          avRowsGo base salt steps
            [("Original", password), ("Flip 1st char", p1),
             ("Flip mid char", p2), ("Flip last char", p3)]

/-- The mathematical salt polynomial the spec describes:
`Σ saltᵢ · 31^i` over the consumed character values (`listPoly l` computed
little-endian: `c₀ + 31·(c₁ + 31·(…))`). -/
def listPoly : List Nat → Nat
  | [] => 0
  | c :: rest => c + 31 * listPoly rest

/-! ## Helper lemmas -/

theorem U32_eq_pow : U32 = 2 ^ 32 := by decide

theorem U32_pos : 0 < U32 := by decide

theorem hexDigitsAux_length_le :
    ∀ (fuel n k : Nat), n ≤ fuel → n < 16 ^ k → (hexDigitsAux fuel n).length ≤ k := by
  intro fuel
  induction fuel with
  | zero => intro n k _ _; simp [hexDigitsAux]
  | succ f ih =>
    intro n k hn hk
    match n with
    | 0 => simp [hexDigitsAux]
    | m + 1 =>
      match k with
      | 0 => simp [pow_zero] at hk
      | j + 1 =>
        simp only [hexDigitsAux, List.length_cons]
        have h1 : (m + 1) / 16 ≤ f := by omega
        have h2 : (m + 1) / 16 < 16 ^ j := by
          have hp : (16 : Nat) ^ (j + 1) = 16 ^ j * 16 := pow_succ 16 j
          omega
        have := ih ((m + 1) / 16) j h1 h2
        omega

theorem jsHex_length_le (n : Nat) (h : n < U32) : (jsHex n).length ≤ 8 := by
  unfold jsHex
  split
  · simp
  · rw [List.length_reverse]
    exact hexDigitsAux_length_le n n 8 (le_refl n) (by rw [show (16:Nat)^8 = U32 from by decide]; exact h)

theorem pad8_length (l : List Char) (h : l.length ≤ 8) : (pad8 l).length = 8 := by
  simp [pad8]
  omega

theorem pad8_jsHex_length (n : Nat) (h : n < U32) : (pad8 (jsHex n)).length = 8 :=
  pad8_length _ (jsHex_length_le n h)

theorem avalancheFinalize_lt (h : Nat) : avalancheFinalize h < U32 := by
  unfold avalancheFinalize
  rw [U32_eq_pow]
  apply Nat.xor_lt_two_pow
  · rw [← U32_eq_pow]; exact Nat.mod_lt _ U32_pos
  · calc _ ≤ _ := Nat.div_le_self _ _
      _ < U32 := Nat.mod_lt _ U32_pos
      _ = 2 ^ 32 := U32_eq_pow

theorem rotl13_lt (v : Nat) : rotl13 v < U32 := by
  show (v % U32 * 8192 % U32 ||| v % U32 / 524288) < U32
  rw [U32_eq_pow]
  apply Nat.or_lt_two_pow
  · rw [← U32_eq_pow]; exact Nat.mod_lt _ U32_pos
  · calc _ ≤ v % U32 := Nat.div_le_self _ _
      _ < U32 := Nat.mod_lt _ U32_pos
      _ = 2 ^ 32 := U32_eq_pow

theorem rotl13_testBit (h : Nat) (hh : h < U32) (i : Nat) (hi : i < 32) :
    (rotl13 h).testBit i = h.testBit ((i + 19) % 32) := by
  have hmod : h % U32 = h := Nat.mod_eq_of_lt hh
  show (h % U32 * 8192 % U32 ||| h % U32 / 524288).testBit i = h.testBit ((i + 19) % 32)
  rw [hmod, U32_eq_pow, show (8192 : Nat) = 2 ^ 13 from by decide,
    show (524288 : Nat) = 2 ^ 19 from by decide, ← Nat.shiftLeft_eq,
    ← Nat.shiftRight_eq_div_pow]
  rw [Nat.testBit_or, Nat.testBit_mod_two_pow, Nat.testBit_shiftLeft, Nat.testBit_shiftRight]
  by_cases h13 : i < 13
  · have hm : (i + 19) % 32 = 19 + i := by omega
    simp [h13, hm, show ¬(13 ≤ i) from by omega]
  · have h19 : h.testBit (19 + i) = false := by
      apply Nat.testBit_lt_two_pow
      calc h < U32 := hh
        _ = 2 ^ 32 := U32_eq_pow
        _ ≤ 2 ^ (19 + i) := Nat.pow_le_pow_right (by omega) (by omega)
    have hm : (i + 19) % 32 = i - 13 := by omega
    simp [h19, hm, hi, show 13 ≤ i from by omega]

theorem rotl13_iter_lt (n v : Nat) (h : v < U32) : rotl13^[n] v < U32 := by
  cases n with
  | zero => exact h
  | succ m => rw [Function.iterate_succ_apply']; exact rotl13_lt _

theorem rotl13_iter_testBit :
    ∀ (n h : Nat), h < U32 → ∀ i, i < 32 →
      (rotl13^[n] h).testBit i = h.testBit ((i + 19 * n) % 32) := by
  intro n
  induction n with
  | zero => intro h hh i hi; simp [Nat.mod_eq_of_lt hi]
  | succ m ih =>
    intro h hh i hi
    rw [Function.iterate_succ_apply', rotl13_testBit _ (rotl13_iter_lt m h hh) i hi,
      ih h hh ((i + 19) % 32) (Nat.mod_lt _ (by omega))]
    congr 1
    omega

theorem rotl13_iter32 (h : Nat) (hh : h < U32) : rotl13^[32] h = h := by
  apply Nat.eq_of_testBit_eq
  intro i
  by_cases hi : i < 32
  · rw [rotl13_iter_testBit 32 h hh i hi]
    congr 1
    omega
  · have hb : U32 ≤ 2 ^ i := by
      rw [U32_eq_pow]; exact Nat.pow_le_pow_right (by omega) (by omega)
    rw [Nat.testBit_lt_two_pow (lt_of_lt_of_le (rotl13_iter_lt 32 h hh) hb),
      Nat.testBit_lt_two_pow (lt_of_lt_of_le hh hb)]

theorem bit_rotate_iter_val (n : Nat) (s : HashState) :
    ((fun t => (bit_rotate_run t).1)^[n] s).val = rotl13^[n] s.val := by
  induction n with
  | zero => rfl
  | succ m ih =>
    rw [Function.iterate_succ_apply', Function.iterate_succ_apply', ← ih]
    rfl

theorem modExpLoop_eq (M : Nat) (hM : 1 < M) :
    ∀ (fuel e r b : Nat), e ≤ fuel → r < M →
      modExpLoop M fuel r b e = r * b ^ e % M := by
  intro fuel
  induction fuel with
  | zero =>
    intro e r b he hr
    have he0 : e = 0 := by omega
    subst he0
    simp [modExpLoop, Nat.mod_eq_of_lt hr]
  | succ fl ih =>
    intro e r b he hr
    rw [modExpLoop]
    split
    · rename_i h0
      subst h0
      simp [Nat.mod_eq_of_lt hr]
    · rename_i h0
      have hrec := ih (e / 2)
      by_cases hpar : e % 2 = 1
      · rw [if_pos hpar, hrec _ _ (by omega) (Nat.mod_lt _ (by omega))]
        have hcong : r * b % M * (b * b % M) ^ (e / 2) % M =
            r * b * (b * b) ^ (e / 2) % M :=
          ((Nat.mod_modEq (r * b) M).mul ((Nat.mod_modEq (b * b) M).pow (e / 2)))
        rw [hcong]
        congr 1
        conv_rhs => rw [show e = 2 * (e / 2) + 1 from by omega]
        ring
      · rw [if_neg hpar, hrec _ _ (by omega) hr]
        have hcong : r * (b * b % M) ^ (e / 2) % M = r * (b * b) ^ (e / 2) % M :=
          ((Nat.ModEq.refl r).mul ((Nat.mod_modEq (b * b) M).pow (e / 2)))
        rw [hcong]
        congr 1
        conv_rhs => rw [show e = 2 * (e / 2) from by omega]
        ring

theorem salt_fold_poly :
    ∀ (l : List Nat) (sv p : Nat),
      (l.foldl (fun (a : Nat × Nat) c => ((a.1 + c * a.2) % U32, a.2 * 31 % U32)) (sv, p)).1
        % U32 = (sv + p * listPoly l) % U32 := by
  intro l
  induction l with
  | nil => intro sv p; simp [listPoly]
  | cons c rest ih =>
    intro sv p
    simp only [List.foldl_cons, listPoly]
    rw [ih]
    have hcong : ((sv + c * p) % U32 + p * 31 % U32 * listPoly rest) % U32 =
        (sv + c * p + p * 31 * listPoly rest) % U32 :=
      ((Nat.mod_modEq (sv + c * p) U32).add ((Nat.mod_modEq (p * 31) U32).mul
        (Nat.ModEq.refl (listPoly rest))))
    rw [hcong]
    congr 1
    ring

theorem salt_fold_lt :
    ∀ (l : List Nat) (sv p : Nat), sv < U32 →
      (l.foldl (fun (a : Nat × Nat) c => ((a.1 + c * a.2) % U32, a.2 * 31 % U32)) (sv, p)).1
        < U32 := by
  intro l
  induction l with
  | nil => intro sv p h; exact h
  | cons c rest ih =>
    intro sv p h
    simp only [List.foldl_cons]
    exact ih _ _ (Nat.mod_lt _ U32_pos)


theorem countDifferentChars_self (a : List Char) : countDifferentChars a a = 0 := by
  have h : ∀ l : List Char, ((l.zip l).countP fun p => p.1 != p.2) = 0 := by
    intro l
    induction l with
    | nil => rfl
    | cons c rest ih => simp [List.countP_cons, ih]
  unfold countDifferentChars
  rw [h]
  simp

theorem roundPct_zero (len : Nat) : roundPct 0 len = 0 := by
  unfold roundPct
  cases len with
  | zero => simp
  | succ m => exact Nat.div_eq_of_lt (by omega)

/-- Master lemma about every catalog step: it preserves `str` and `salt`,
touches `hexStr` only when it is `hex_encode` (appending the 8-padded hex of
the current accumulator), keeps the accumulator a 32-bit value, and its
accumulator output and returned value depend only on `str`, `salt` and
`val` (never on `hexStr`). -/
theorem STEPS_run_spec (k : String) (f : HashState → HashState × Nat)
    (hk : STEPS k = some f) (s : HashState) :
    (f s).1.str = s.str ∧ (f s).1.salt = s.salt ∧
    (f s).1.hexStr = s.hexStr ++ (if k = "hex_encode" then pad8 (jsHex s.val) else []) ∧
    (s.val < U32 → (f s).1.val < U32) ∧
    (∀ s₂ : HashState, s.str = s₂.str → s.salt = s₂.salt → s.val = s₂.val →
      (f s).1.val = (f s₂).1.val ∧ (f s).2 = (f s₂).2) := by
  unfold STEPS at hk
  by_cases hc0 : k = "charcode_sum"
  · subst hc0; rw [if_pos rfl] at hk; injection hk with hf; subst hf
    refine ⟨rfl, rfl, by rw [if_neg (by decide)]; simp [charcode_sum_run], fun _ => Nat.mod_lt _ U32_pos,
      fun s₂ h1 h2 h3 => by simp [charcode_sum_run, h1, h3]⟩
  rw [if_neg hc0] at hk
  by_cases hc1 : k = "polynomial_roll"
  · subst hc1; rw [if_pos rfl] at hk; injection hk with hf; subst hf
    refine ⟨rfl, rfl, by rw [if_neg (by decide)]; simp [polynomial_roll_run], fun _ => Nat.mod_lt _ U32_pos,
      fun s₂ h1 h2 h3 => by simp [polynomial_roll_run, h1, h3]⟩
  rw [if_neg hc1] at hk
  by_cases hc2 : k = "xor_fold"
  · subst hc2; rw [if_pos rfl] at hk; injection hk with hf; subst hf
    refine ⟨rfl, rfl, by rw [if_neg (by decide)]; simp [xor_fold_run], fun _ => Nat.mod_lt _ U32_pos,
      fun s₂ h1 h2 h3 => by simp [xor_fold_run, h1, h3]⟩
  rw [if_neg hc2] at hk
  by_cases hc3 : k = "modular_exp"
  · subst hc3; rw [if_pos rfl] at hk; injection hk with hf; subst hf
    refine ⟨rfl, rfl, by rw [if_neg (by decide)]; simp [modular_exp_run], fun _ => Nat.mod_lt _ U32_pos,
      fun s₂ h1 h2 h3 => by simp [modular_exp_run, h3]⟩
  rw [if_neg hc3] at hk
  by_cases hc4 : k = "fibonacci_mix"
  · subst hc4; rw [if_pos rfl] at hk; injection hk with hf; subst hf
    refine ⟨rfl, rfl, by rw [if_neg (by decide)]; simp [fibonacci_mix_run], fun _ => Nat.mod_lt _ U32_pos,
      fun s₂ h1 h2 h3 => by simp [fibonacci_mix_run, h3]⟩
  rw [if_neg hc4] at hk
  by_cases hc5 : k = "prime_multiply"
  · subst hc5; rw [if_pos rfl] at hk; injection hk with hf; subst hf
    refine ⟨rfl, rfl, by rw [if_neg (by decide)]; simp [prime_multiply_run], fun _ => Nat.mod_lt _ U32_pos,
      fun s₂ h1 h2 h3 => by simp [prime_multiply_run, h3]⟩
  rw [if_neg hc5] at hk
  by_cases hc6 : k = "bit_rotate"
  · subst hc6; rw [if_pos rfl] at hk; injection hk with hf; subst hf
    refine ⟨rfl, rfl, by rw [if_neg (by decide)]; simp [bit_rotate_run], fun _ => rotl13_lt _,
      fun s₂ h1 h2 h3 => by simp [bit_rotate_run, h3]⟩
  rw [if_neg hc6] at hk
  by_cases hc7 : k = "ascii_square"
  · subst hc7; rw [if_pos rfl] at hk; injection hk with hf; subst hf
    refine ⟨rfl, rfl, by rw [if_neg (by decide)]; simp [ascii_square_run], fun _ => Nat.mod_lt _ U32_pos,
      fun s₂ h1 h2 h3 => by simp [ascii_square_run, h1, h3]⟩
  rw [if_neg hc7] at hk
  by_cases hc8 : k = "avalanche"
  · subst hc8; rw [if_pos rfl] at hk; injection hk with hf; subst hf
    refine ⟨rfl, rfl, by rw [if_neg (by decide)]; simp [avalanche_run], fun _ => Nat.mod_lt _ U32_pos,
      fun s₂ h1 h2 h3 => by simp [avalanche_run, h3]⟩
  rw [if_neg hc8] at hk
  by_cases hc9 : k = "salt_inject"
  · subst hc9; rw [if_pos rfl] at hk; injection hk with hf; subst hf
    refine ⟨rfl, rfl, by rw [if_neg (by decide)]; simp [salt_inject_run], fun _ => Nat.mod_lt _ U32_pos,
      fun s₂ h1 h2 h3 => by simp [salt_inject_run, h2, h3]⟩
  rw [if_neg hc9] at hk
  by_cases hc10 : k = "rounds"
  · subst hc10; rw [if_pos rfl] at hk; injection hk with hf; subst hf
    refine ⟨rfl, rfl, by rw [if_neg (by decide)]; simp [rounds_run], fun _ => Nat.mod_lt _ U32_pos,
      fun s₂ h1 h2 h3 => by simp [rounds_run, h3]⟩
  rw [if_neg hc10] at hk
  by_cases hc11 : k = "hex_encode"
  · subst hc11; rw [if_pos rfl] at hk; injection hk with hf; subst hf
    refine ⟨rfl, rfl, by rw [if_pos rfl]; simp [hex_encode_run], fun hv => hv,
      fun s₂ h1 h2 h3 => by simp [hex_encode_run, h3]⟩
  rw [if_neg hc11] at hk
  by_cases hc12 : k = "modulo_trim"
  · subst hc12; rw [if_pos rfl] at hk; injection hk with hf; subst hf
    refine ⟨rfl, rfl, by rw [if_neg (by decide)]; simp [modulo_trim_run], fun _ => lt_of_lt_of_le (Nat.mod_lt _ (by omega)) (by decide),
      fun s₂ h1 h2 h3 => by simp [modulo_trim_run, h3]⟩
  rw [if_neg hc12] at hk
  exact Option.noConfusion hk

/-- A pipeline whose ids are all in the catalog runs to completion. -/
theorem runSteps_total :
    ∀ (steps : List String) (s : HashState), (∀ k ∈ steps, (STEPS k).isSome = true) →
      ∃ t vs, runSteps s steps = .ok (t, vs) := by
  intro steps
  induction steps with
  | nil => intro s _; exact ⟨s, [], rfl⟩
  | cons k rest ih =>
    intro s hall
    obtain ⟨f, hf⟩ := Option.isSome_iff_exists.mp (hall k (by simp))
    obtain ⟨t, vs, ht⟩ := ih (f s).1 (fun j hj => hall j (by simp [hj]))
    exact ⟨t, (f s).2 :: vs, by simp [runSteps, hf, ht]⟩

/-- The accumulator trajectory and per-step outputs of a pipeline depend only
on the `str`, `salt` and `val` fields of the starting state, never on its
`hexStr`. -/
theorem runSteps_val_congr :
    ∀ (steps : List String) (s₁ s₂ : HashState),
      s₁.str = s₂.str → s₁.salt = s₂.salt → s₁.val = s₂.val →
      (runSteps s₁ steps).map (fun p => (p.1.val, p.2)) =
        (runSteps s₂ steps).map (fun p => (p.1.val, p.2)) := by
  intro steps
  induction steps with
  | nil => intro s₁ s₂ h1 h2 h3; simp [runSteps, Except.map, h3]
  | cons k rest ih =>
    intro s₁ s₂ h1 h2 h3
    cases hst : STEPS k with
    | none => simp [runSteps, hst]
    | some f =>
      obtain ⟨ha1, ha2, _, _, hacongr⟩ := STEPS_run_spec k f hst s₁
      obtain ⟨hb1, hb2, _, _, _⟩ := STEPS_run_spec k f hst s₂
      obtain ⟨hval, hsnd⟩ := hacongr s₂ h1 h2 h3
      have IH := ih (f s₁).1 (f s₂).1 (by rw [ha1, hb1, h1]) (by rw [ha2, hb2, h2]) hval
      simp only [runSteps, hst]
      cases hr1 : runSteps (f s₁).1 rest with
      | error e =>
        cases hr2 : runSteps (f s₂).1 rest with
        | error e' =>
          rw [hr1, hr2] at IH
          simp only [Except.map] at IH
          injection IH with IH'
          simp [IH']
        | ok q =>
          rw [hr1, hr2] at IH
          simp [Except.map] at IH
      | ok p =>
        cases hr2 : runSteps (f s₂).1 rest with
        | error e' =>
          rw [hr1, hr2] at IH
          simp [Except.map] at IH
        | ok q =>
          rw [hr1, hr2] at IH
          simp only [Except.map] at IH
          injection IH with IH'
          obtain ⟨p1, p2⟩ := p
          obtain ⟨q1, q2⟩ := q
          have hv' : p1.val = q1.val := congrArg Prod.fst IH'
          have hs' : p2 = q2 := congrArg Prod.snd IH'
          simp only [Except.map]
          rw [hv', hs', hsnd]

/-- Inserting a `hex_encode` step anywhere in a pipeline does not change the
accumulator trajectory: the final accumulator (modulo the evaluator's
error/success outcome, which is also unchanged) is the same as without it. -/
theorem runSteps_hexframe :
    ∀ (a b : List String) (s : HashState),
      (runSteps s (a ++ "hex_encode" :: b)).map (fun p => p.1.val) =
        (runSteps s (a ++ b)).map (fun p => p.1.val) := by
  intro a
  induction a with
  | nil =>
    intro b s
    have hst : STEPS "hex_encode" = some hex_encode_run := rfl
    simp only [List.nil_append, runSteps, hst]
    have hcong := runSteps_val_congr b (hex_encode_run s).1 s rfl rfl rfl
    cases hr1 : runSteps (hex_encode_run s).1 b with
    | error e =>
      cases hr2 : runSteps s b with
      | error e' =>
        rw [hr1, hr2] at hcong
        simp only [Except.map] at hcong
        injection hcong with h'
        simp [Except.map, h']
      | ok q =>
        rw [hr1, hr2] at hcong
        simp [Except.map] at hcong
    | ok p =>
      cases hr2 : runSteps s b with
      | error e' =>
        rw [hr1, hr2] at hcong
        simp [Except.map] at hcong
      | ok q =>
        rw [hr1, hr2] at hcong
        simp only [Except.map] at hcong
        injection hcong with h'
        obtain ⟨p1, p2⟩ := p
        obtain ⟨q1, q2⟩ := q
        have hv' : p1.val = q1.val := congrArg Prod.fst h'
        simp [Except.map, hv']
  | cons j a' ih =>
    intro b s
    cases hst : STEPS j with
    | none => simp [runSteps, hst]
    | some f =>
      simp only [List.cons_append, runSteps, hst]
      have IH := ih b (f s).1
      cases hr1 : runSteps (f s).1 (a' ++ "hex_encode" :: b) with
      | error e =>
        cases hr2 : runSteps (f s).1 (a' ++ b) with
        | error e' =>
          rw [hr1, hr2] at IH
          simp only [Except.map] at IH
          injection IH with h'
          simp [Except.map, h']
        | ok q =>
          rw [hr1, hr2] at IH
          simp [Except.map] at IH
      | ok p =>
        cases hr2 : runSteps (f s).1 (a' ++ b) with
        | error e' =>
          rw [hr1, hr2] at IH
          simp [Except.map] at IH
        | ok q =>
          rw [hr1, hr2] at IH
          obtain ⟨p1, p2⟩ := p
          obtain ⟨q1, q2⟩ := q
          simp [Except.map] at IH
          simp [Except.map, IH]

/-- Hitting an id outside the catalog fails the run with that id's error. -/
theorem runSteps_unknown :
    ∀ (pre : List String) (s : HashState) (k : String) (post : List String),
      STEPS k = none → (∀ j ∈ pre, (STEPS j).isSome = true) →
      runSteps s (pre ++ k :: post) = .error (.unknownStep k) := by
  intro pre
  induction pre with
  | nil => intro s k post hk _; simp [runSteps, hk]
  | cons j rest ih =>
    intro s k post hk hall
    obtain ⟨f, hf⟩ := Option.isSome_iff_exists.mp (hall j (by simp))
    simp [runSteps, hf, ih (f s).1 k post hk (fun i hi => hall i (by simp [hi]))]

theorem runHash_map_stateVal (pw salt : List Nat) (steps : List String) :
    (runHash pw salt steps).map RunResult.stateVal =
      (runSteps (initState pw salt) steps).map (fun p => p.1.val) := by
  cases h : runSteps (initState pw salt) steps with
  | error e => simp [runHash, h, Except.map]
  | ok p =>
    obtain ⟨t, vs⟩ := p
    simp [runHash, h, Except.map]

theorem runHash_total (pw salt : List Nat) (steps : List String)
    (h : ∀ k ∈ steps, (STEPS k).isSome = true) :
    ∃ r, runHash pw salt steps = .ok r := by
  obtain ⟨t, vs, ht⟩ := runSteps_total steps (initState pw salt) h
  unfold runHash
  rw [ht]
  exact ⟨_, rfl⟩

/-! ## Claim theorems -/

/-- C2 counterexample: `runHash` itself does *not* fail on the empty
pipeline — it returns a degenerate result (the 16-hex digest synthesized from
the bare seed, here seed 0 for the empty password), contradicting the claim
that `evaluate` fails with `EmptyPipelineError`. -/
theorem runHash_empty_pipeline_returns :
    runHash [] [] [] = .ok { finalHash := List.replicate 16 '0'
                             stepOutputs := []
                             stateVal := 0 } := by
  rfl

/-- C2 (amended): the empty-pipeline rejection lives in the `btn-run` click
handler, which blocks the action (`none`) before ever invoking `runHash`;
`runHash` itself, given a zero-length pipeline, succeeds and returns the
degenerate digest synthesized from the untouched seed accumulator. -/
theorem empty_pipeline_boundary :
    (∀ (pw salt : List Nat) , btnRunClick pw salt [] = none) ∧
    (∀ (pw salt : List Nat), runHash pw salt [] =
      .ok { finalHash := pad8 (jsHex (initState pw salt).val) ++
              pad8 (jsIntHex (toInt32 (avalancheFinalize (initState pw salt).val)))
            stepOutputs := []
            stateVal := (initState pw salt).val }) := by
  constructor
  · intro pw salt; rfl
  · intro pw salt; rfl

/-- C3 counterexample: on the *empty* salt, `salt_inject` does not leave the
accumulator unchanged (the claim's `sv = 0` case): the code substitutes the
string `'x'`, so an accumulator of 7 becomes `7 XOR 120 = 127`. -/
theorem salt_inject_empty_salt_changes_acc :
    (salt_inject_run { str := [], val := 7, salt := [], hexStr := [] }).1.val = 127 ∧
    (127 : Nat) ≠ 7 := by
  exact ⟨by decide, by decide⟩

/-- C3 (amended): for a non-empty salt, `salt_inject` XORs the accumulator
with `sv = (Σ saltᵢ·31ⁱ) mod 2^32` over the salt's consumed character values
(32-bit truncation at every multiply/add step reduces to one final `mod`);
for the empty salt the code falls back to the one-character string `'x'`,
XORing with 120 instead of leaving the accumulator unchanged. -/
theorem salt_inject_poly_spec : ∀ s : HashState,
    (s.salt = [] → (salt_inject_run s).1.val = (s.val ^^^ 120) % U32) ∧
    (s.salt ≠ [] →
      (salt_inject_run s).1.val = (s.val ^^^ listPoly (jsUnits s.salt) % U32) % U32) := by
  intro s
  constructor
  · intro h
    simp [salt_inject_run, h, jsUnits]
    norm_num [U32]
  · intro h
    have hsv : ((jsUnits s.salt).foldl
        (fun (a : Nat × Nat) c => ((a.1 + c * a.2) % U32, a.2 * 31 % U32)) (0, 1)).1
        = listPoly (jsUnits s.salt) % U32 := by
      have hlt := salt_fold_lt (jsUnits s.salt) 0 1 (by decide)
      have heq := salt_fold_poly (jsUnits s.salt) 0 1
      rw [Nat.mod_eq_of_lt hlt] at heq
      rw [heq]
      norm_num
    simp [salt_inject_run, h, hsv]

/-- C3 witness: the amended theorem applied to accumulator 5 and salt "a". -/
theorem salt_inject_poly_spec_witness :
    (salt_inject_run { str := [], val := 5, salt := [97], hexStr := [] }).1.val =
      (5 ^^^ listPoly (jsUnits [97]) % U32) % U32 :=
  (salt_inject_poly_spec { str := [], val := 5, salt := [97], hexStr := [] }).2 (by decide)

/-- C4 counterexample: at accumulator `2^31 - 1 = 2147483647`, the claimed
result `base^65537 mod (2^31−1)` with `base` the accumulator is `0`, but the
code first reduces the base modulo `2^31−1` and maps a zero reduction to 1,
producing 1. -/
theorem modular_exp_reduction_zero_cex :
    (modular_exp_run { str := [], val := 2147483647, salt := [], hexStr := [] }).1.val ≠
      2147483647 ^ 65537 % 2147483647 := by
  have hR : 2147483647 ^ 65537 % 2147483647 = 0 := by
    rw [Nat.pow_mod]
    norm_num
  have hj : jsModExp 2147483647 = 1 := by
    unfold jsModExp
    rfl
  have hL : (modular_exp_run { str := [], val := 2147483647, salt := [], hexStr := [] }).1.val
      = 1 := by
    show jsModExp 2147483647 % U32 = 1
    rw [hj]
    decide
  rw [hL, hR]
  decide

/-- C4 (amended): `modular_exp` sets the accumulator to
`base^65537 mod (2^31−1)` where `base` is the accumulator reduced modulo
`2^31−1` (taking 1 when the accumulator is 0 — and also, beyond the claim's
wording, when that reduction is 0); the result is below `2^31−1`, so the
32-bit narrowing is the identity. -/
theorem modular_exp_closed_form : ∀ s : HashState,
    (modular_exp_run s).1.val =
      (if (if s.val = 0 then 1 else s.val) % 2147483647 = 0 then 1
       else (if s.val = 0 then 1 else s.val) % 2147483647) ^ 65537 % 2147483647 := by
  intro s
  show jsModExp s.val % U32 = _
  have hloop : jsModExp s.val =
      (if (if s.val = 0 then 1 else s.val) % 2147483647 = 0 then 1
       else (if s.val = 0 then 1 else s.val) % 2147483647) ^ 65537 % 2147483647 := by
    unfold jsModExp
    rw [modExpLoop_eq 2147483647 (by norm_num) 65537 65537 1 _ (le_refl _) (by norm_num)]
    rw [one_mul]
  rw [hloop]
  exact Nat.mod_eq_of_lt (lt_of_lt_of_le (Nat.mod_lt _ (by norm_num)) (by norm_num [U32]))

/-- C5 (code bug, concrete evaluation): on the single astral character
U+1F600 (UTF-16 units 55357, 56832), whose code point is 128512, the
string-derived steps consume the *first UTF-16 unit* 55357 of each code
point, not the code point value: `charcode_sum` adds 55357, `xor_fold` XORs
55357, `ascii_square` adds `55357²`, while the claim (and the steps' own
descriptions) require 128512. -/
theorem string_steps_first_code_unit :
    jsCodePoints [55357, 56832] = [128512] ∧
    (charcode_sum_run { str := [55357, 56832], val := 0, salt := [], hexStr := [] }).1.val
      = 55357 ∧
    (xor_fold_run { str := [55357, 56832], val := 0, salt := [], hexStr := [] }).1.val
      = 55357 ∧
    (ascii_square_run { str := [55357, 56832], val := 0, salt := [], hexStr := [] }).1.val
      = 3064397449 ∧
    (55357 : Nat) ≠ 128512 ∧ (3064397449 : Nat) ≠ 128512 * 128512 % U32 := by
  exact ⟨by decide, by decide, by decide, by decide, by decide, by decide⟩

/-- C6: the seed `(password.length × 2166136261) mod 2^32` is an unsigned
32-bit integer, and every step of the catalog, run on a state whose
accumulator is in `[0, 2^32)`, returns an accumulator in `[0, 2^32)` (steps
that work in a wider modulus internally narrow back before returning). -/
theorem steps_preserve_uint32 :
    (∀ pw salt : List Nat, (initState pw salt).val < U32) ∧
    (∀ (k : String) (f : HashState → HashState × Nat), STEPS k = some f →
      ∀ s : HashState, s.val < U32 → (f s).1.val < U32) := by
  constructor
  · intro pw salt
    exact Nat.mod_lt _ U32_pos
  · intro k f hk s hv
    exact (STEPS_run_spec k f hk s).2.2.2.1 hv

/-- C6 witness: the invariant theorem applied to the `bit_rotate` step on a
concrete state with accumulator 5. -/
theorem steps_preserve_uint32_witness :
    (bit_rotate_run { str := [], val := 5, salt := [], hexStr := [] }).1.val < U32 :=
  steps_preserve_uint32.2 "bit_rotate" bit_rotate_run rfl
    { str := [], val := 5, salt := [], hexStr := [] } (by decide)

/-- C8: a pipeline that reaches an id absent from the catalog makes `runHash`
fail with that id's `UnknownStepError` (in the JS source, the `TypeError`
from calling `.run` on `undefined`), propagated to the caller unrecovered. -/
theorem runHash_unknown_step :
    ∀ (pw salt : List Nat) (pre post : List String) (k : String),
      STEPS k = none → (∀ j ∈ pre, (STEPS j).isSome = true) →
      runHash pw salt (pre ++ k :: post) = .error (.unknownStep k) := by
  intro pw salt pre post k hk hall
  unfold runHash
  rw [runSteps_unknown pre (initState pw salt) k post hk hall]

/-- C8 witness: the spec's own test case `evaluate("p","s",["not_a_real_step"])`. -/
theorem runHash_unknown_step_witness :
    runHash [112] [115] ["not_a_real_step"] = .error (.unknownStep "not_a_real_step") :=
  runHash_unknown_step [112] [115] [] [] "not_a_real_step" rfl (by simp)

/-- C9: applying the `bit_rotate` step 32 times in sequence (cumulative
rotation 416 ≡ 0 mod 32) restores any 32-bit accumulator, while applying it
4 times (rotation 20) is not the identity (witnessed at accumulator 1). -/
theorem bit_rotate_roundtrip :
    (∀ s : HashState, s.val < U32 →
      ((fun t => (bit_rotate_run t).1)^[32] s).val = s.val) ∧
    (∃ s : HashState, s.val < U32 ∧
      ((fun t => (bit_rotate_run t).1)^[4] s).val ≠ s.val) := by
  constructor
  · intro s hv
    rw [bit_rotate_iter_val, rotl13_iter32 _ hv]
  · refine ⟨{ str := [], val := 1, salt := [], hexStr := [] }, by decide, ?_⟩
    rw [bit_rotate_iter_val]
    decide

/-- C9 witness: 32 rotations restore the concrete accumulator 12345. -/
theorem bit_rotate_roundtrip_witness :
    ((fun t => (bit_rotate_run t).1)^[32]
      { str := [], val := 12345, salt := [], hexStr := [] }).val = 12345 :=
  bit_rotate_roundtrip.1 { str := [], val := 12345, salt := [], hexStr := [] } (by decide)

/-- C10: `hex_encode` never changes the accumulator; applied twice in a row
from an empty `hexAccumulator` it yields two identical zero-padded 8-digit
words (16 characters); and inserting a `hex_encode` anywhere in a pipeline
leaves the run's `finalAccumulator` (and its error outcome) unchanged. -/
theorem hex_encode_frame :
    (∀ s : HashState, (hex_encode_run s).1.val = s.val) ∧
    (∀ s : HashState, s.val < U32 → s.hexStr = [] →
      (hex_encode_run (hex_encode_run s).1).1.hexStr
        = pad8 (jsHex s.val) ++ pad8 (jsHex s.val) ∧
      (pad8 (jsHex s.val)).length = 8 ∧
      (hex_encode_run (hex_encode_run s).1).1.hexStr.length = 16) ∧
    (∀ (pw salt : List Nat) (a b : List String),
      (runHash pw salt (a ++ "hex_encode" :: b)).map RunResult.stateVal =
        (runHash pw salt (a ++ b)).map RunResult.stateVal) := by
  refine ⟨fun s => rfl, ?_, ?_⟩
  · intro s hv hh
    have hlen := pad8_jsHex_length s.val hv
    have h2 : (hex_encode_run (hex_encode_run s).1).1.hexStr
        = pad8 (jsHex s.val) ++ pad8 (jsHex s.val) := by
      simp [hex_encode_run, hh]
    refine ⟨h2, hlen, ?_⟩
    rw [h2]
    simp [hlen]
  · intro pw salt a b
    rw [runHash_map_stateVal, runHash_map_stateVal, runSteps_hexframe]

/-- C10 witness: two hex encodings of the accumulator 255 produce a
16-character hex accumulator. -/
theorem hex_encode_frame_witness :
    (hex_encode_run (hex_encode_run
      { str := [], val := 255, salt := [], hexStr := [] }).1).1.hexStr.length = 16 :=
  (hex_encode_frame.2.1 { str := [], val := 255, salt := [], hexStr := [] }
    (by decide) rfl).2.2

/-- C1 (code bug, concrete evaluation): for password "b" (unit 98), empty
salt and pipeline `["charcode_sum"]`, the final accumulator is 2166136359 and
the avalanche-derived second word is `3450186596 ≥ 2^31`; because the last
`h2 ^= h2 >>> 16` of `runHash` is not followed by `>>> 0`, the code renders
it as the *signed* int32 `-844780700`, producing the 17-character digest
`811c9e27-325a549c` instead of the claimed 16-hex-character
`811c9e27cda5ab64`. -/
theorem runHash_signed_word_concrete :
    runHash [98] [] ["charcode_sum"] = .ok
      { finalHash := ['8','1','1','c','9','e','2','7','-','3','2','5','a','5','4','9','c']
        stepOutputs := [2166136359]
        stateVal := 2166136359 } ∧
    (['8','1','1','c','9','e','2','7','-','3','2','5','a','5','4','9','c'] : List Char).length
      = 17 ∧
    avalancheFinalize 2166136359 = 3450186596 ∧
    pad8 (jsHex 2166136359) ++ pad8 (jsHex (avalancheFinalize 2166136359)) =
      ['8','1','1','c','9','e','2','7','c','d','a','5','a','b','6','4'] ∧
    (['8','1','1','c','9','e','2','7','-','3','2','5','a','5','4','9','c'] : List Char) ≠
      pad8 (jsHex 2166136359) ++ pad8 (jsHex (avalancheFinalize 2166136359)) := by
  exact ⟨by rfl, by decide, by decide, by decide, by decide⟩

/-- C7 counterexample: on the zero-length password the avalanche report does
not complete: `flipChar("", 0)` dereferences an undefined element (the claim
says the computation must not fail there). -/
theorem runAvalanche_empty_password_fails :
    runAvalanche [] [] ["xor_fold"] = .error .typeError := by
  rfl

/-- C7 (amended): for a single-character password the avalanche report does
complete and produces all four rows; the "flip first", "flip mid" and "flip
last" mutations coincide (all flip index 0), so their rows carry the same
mutated hash — the degenerate overlap is kept, not deduplicated.  For the
zero-length password the computation fails instead (see the counterexample);
the UI boundary never passes one, substituting the default password. -/
theorem runAvalanche_single_char :
    ∀ (u : Nat) (salt : List Nat) (steps : List String),
      (∀ k ∈ steps, (STEPS k).isSome = true) →
      ∃ r r' : RunResult,
        runHash [u] salt steps = .ok r ∧
        runHash [(u + 1) % 65536] salt steps = .ok r' ∧
        flipChar [u] 0 = .ok [(u + 1) % 65536] ∧
        flipChar [u] (([u].length / 2 : Nat) : Int) = .ok [(u + 1) % 65536] ∧
        flipChar [u] (([u].length : Int) - 1) = .ok [(u + 1) % 65536] ∧
        runAvalanche [u] salt steps = .ok
          [{ label := "Original", hash := r.finalHash, pct := 0 },
           { label := "Flip 1st char", hash := r'.finalHash
             pct := roundPct (countDifferentChars r.finalHash r'.finalHash)
               r.finalHash.length },
           { label := "Flip mid char", hash := r'.finalHash
             pct := roundPct (countDifferentChars r.finalHash r'.finalHash)
               r.finalHash.length },
           { label := "Flip last char", hash := r'.finalHash
             pct := roundPct (countDifferentChars r.finalHash r'.finalHash)
               r.finalHash.length }] := by
  intro u salt steps hall
  obtain ⟨r, hr⟩ := runHash_total [u] salt steps hall
  obtain ⟨r', hr'⟩ := runHash_total [(u + 1) % 65536] salt steps hall
  have hflip : flipChar [u] 0 = .ok [(u + 1) % 65536] := by
    simp [flipChar, jsSpread]
  have hidx2 : (([u].length / 2 : Nat) : Int) = 0 := by norm_num
  have hidx3 : (([u].length : Int) - 1) = 0 := by norm_num
  have hf2 : flipChar [u] (([u].length / 2 : Nat) : Int) = .ok [(u + 1) % 65536] := by
    rw [hidx2]; exact hflip
  have hf3 : flipChar [u] (([u].length : Int) - 1) = .ok [(u + 1) % 65536] := by
    rw [hidx3]; exact hflip
  refine ⟨r, r', hr, hr', hflip, hf2, hf3, ?_⟩
  simp only [runAvalanche, hr, hflip, hf2, hf3, avRowsGo, hr']
  simp [countDifferentChars_self, roundPct_zero]

/-- C7 witness: the amended theorem at password "a", empty salt and the
pipeline `["xor_fold"]`. -/
theorem runAvalanche_single_char_witness :
    ∃ r r' : RunResult,
      runHash [97] [] ["xor_fold"] = .ok r ∧
      runHash [(97 + 1) % 65536] [] ["xor_fold"] = .ok r' ∧
      flipChar [97] 0 = .ok [(97 + 1) % 65536] ∧
      flipChar [97] (([97].length / 2 : Nat) : Int) = .ok [(97 + 1) % 65536] ∧
      flipChar [97] (([97].length : Int) - 1) = .ok [(97 + 1) % 65536] ∧
      runAvalanche [97] [] ["xor_fold"] = .ok
        [{ label := "Original", hash := r.finalHash, pct := 0 },
         { label := "Flip 1st char", hash := r'.finalHash
           pct := roundPct (countDifferentChars r.finalHash r'.finalHash)
             r.finalHash.length },
         { label := "Flip mid char", hash := r'.finalHash
           pct := roundPct (countDifferentChars r.finalHash r'.finalHash)
             r.finalHash.length },
         { label := "Flip last char", hash := r'.finalHash
           pct := roundPct (countDifferentChars r.finalHash r'.finalHash)
             r.finalHash.length }] :=
  runAvalanche_single_char 97 [] ["xor_fold"] (by decide)
